import Mathlib

/-!
Verification of the training-orchestration and monitoring core of the Sin
repository (src/sin.py, src/brain/monitor.py), as a shallow embedding.

Python float scalars (losses, metric values) are embedded as exact `Int`
values: every property checked here concerns control flow, ordering and
bookkeeping, never rounding. Python dicts are embedded as association
lists preserving insertion order (Python 3.7+ semantics). External
collaborators (model, trainer, evaluator, filesystem, torch) are
parameters supplying their documented input/output behaviour; fallible
collaborator calls return `Option`, and functions that may re-raise
return `Except Unit`.
-/

/-- Scalar stand-in for Python floats: exact integer values. -/
abbrev Scalar := Int

/-- A metric mapping (Python dict from metric name to float), in insertion
order. -/
abbrev Metrics := List (String × Scalar)

/-- Python `dict.get`/`dict[k]` on an association list: first entry whose
key matches. -/
def dictGet {β : Type} (m : List (String × β)) (k : String) : Option β :=
  (m.find? (fun p => p.1 == k)).map (fun p => p.2)

/-- Python dict assignment `m[k] = v`: overwrite in place when the key
exists (keeping its position), else append a new entry. -/
def dinsert {β : Type} (m : List (String × β)) (k : String) (v : β) :
    List (String × β) :=
  if m.any (fun p => p.1 == k) then
    m.map (fun p => if p.1 == k then (p.1, v) else p)
  else m ++ [(k, v)]

/-- The structured log document of `TrainingMonitor.current_log`
(src/brain/monitor.py): `epochs`, `train_loss`, `val_loss`, and the
`metrics` mapping from tracked metric name to its series. -/
structure CurrentLog where
  epochs : List Nat
  train_loss : List Scalar
  val_loss : List Scalar
  metrics : List (String × List Scalar)
deriving DecidableEq

/-- The monitor's state: its in-memory `current_log` plus the content of
the persisted `training_log.json` (`none` before any write). -/
structure MonitorState where
  current_log : CurrentLog
  disk : Option CurrentLog
deriving DecidableEq

/-- The all-empty log document. -/
def emptyLog : CurrentLog := ⟨[], [], [], []⟩

/-- Modelled from the spec: `reset_logs` is called by
`TrainingMonitor.__init__` (src/brain/monitor.py line 15) but is not
defined in any file under src/. Per spec §4.2, `reset()` "clears all
records and the tracked-metric-name set; writes an empty log to durable
storage". -/
def reset_logs (_st : MonitorState) : MonitorState :=
  { current_log := emptyLog, disk := some emptyLog }

/-- The monitor as constructed by `TrainingMonitor.__init__`: the log
directory is created and `reset_logs` runs. -/
def monitorInit : MonitorState := reset_logs ⟨emptyLog, none⟩

/-- One pass of `log_epoch`'s inner loop body: append `v` to the series
of metric `k` only when `k` is already a key of the metrics mapping
(`if metric in self.current_log["metrics"]`). -/
def appendTracked (m : List (String × List Scalar)) (k : String) (v : Scalar) :
    List (String × List Scalar) :=
  m.map (fun p => if p.1 == k then (p.1, p.2 ++ [v]) else p)

/-- `TrainingMonitor.log_epoch` (src/brain/monitor.py lines 21-37):
appends `epoch` and `train_loss` unconditionally; when `val_metrics` is
truthy (not `None` and non-empty), appends each value whose name is
already tracked; then persists the whole log (`_save_log`). The plot
regeneration has no effect on the modelled state. -/
def logEpoch (st : MonitorState) (epoch : Nat) (train_loss : Scalar)
    (val_metrics : Option Metrics) : MonitorState :=
  let log := st.current_log
  let log := { log with
                epochs := log.epochs ++ [epoch],
                train_loss := log.train_loss ++ [train_loss] }
  let log :=
    match val_metrics with
    | none => log
    | some ms =>
      if ms.isEmpty then log
      else { log with
              metrics := ms.foldl (fun acc p => appendTracked acc p.1 p.2)
                log.metrics }
  { current_log := log, disk := some log }

/-- The values that `log_epoch` would append to metric `k` from a given
`val_metrics` argument: the values of all pairs named `k`, in order. -/
def valuesFor (k : String) (val_metrics : Option Metrics) : List Scalar :=
  match val_metrics with
  | none => []
  | some ms => (ms.filter (fun p => p.1 == k)).map (fun p => p.2)

/-- The maximum of a series, as `np.argmax` ranks it: fold of `max` over
the list (0 is never used: callers guard against the empty series). -/
def listMax : List Scalar → Scalar
  | [] => 0
  | x :: xs => xs.foldl max x

/-- `TrainingMonitor.get_best_epoch` (src/brain/monitor.py lines 70-73):
`-1` when the metric is absent or its series is empty (Python falsy
`get`), else `int(np.argmax(series)) + 1`. `np.argmax` is modelled from
numpy's documented semantics: the index of the first occurrence of the
maximum value. -/
def get_best_epoch (st : MonitorState) (metric : String) : Int :=
  match dictGet st.current_log.metrics metric with
  | none => -1
  | some [] => -1
  | some (x :: xs) =>
    Int.ofNat ((x :: xs).findIdx (fun v => v == listMax (x :: xs))) + 1

/-- `Sin.evaluate` (src/sin.py lines 51-55): `{}` for a falsy dataset
(`None` or empty), otherwise the evaluator collaborator's result. The
evaluator (`evaluate_dataset`) is passed in as `evalDS`. -/
def sinEvaluate {α : Type} (dataset : Option (List α))
    (evalDS : List α → Nat → Metrics) (sample_size : Nat) : Metrics :=
  match dataset with
  | none => []
  | some d => if d.isEmpty then [] else evalDS d sample_size

/-- Is the first list a prefix of the second? (plain Boolean check on
character lists). -/
def isPre : List Char → List Char → Bool
  | [], _ => true
  | _ :: _, [] => false
  | a :: as, b :: bs => a == b && isPre as bs

/-- Scan helper for `afterLastOcc`: walks the text keeping the suffix
following the most recent separator occurrence seen so far. -/
def afterLastAux (sep : List Char) : List Char → List Char → List Char
  | [], best => best
  | c :: rest, best =>
    afterLastAux sep rest
      (if isPre sep (c :: rest) then (c :: rest).drop sep.length else best)

/-- Python `s.split(sep)[-1]` for a non-empty, non-self-overlapping
separator: the suffix after the last occurrence of `sep`, or all of `s`
when `sep` does not occur. -/
def afterLastOcc (sep s : List Char) : List Char := afterLastAux sep s s

/-- Python `s.split(sep)[0]`: the prefix before the first occurrence of
`sep`, or all of `s` when `sep` does not occur. -/
def beforeFirstOcc (sep : List Char) : List Char → List Char
  | [] => []
  | c :: rest =>
    if isPre sep (c :: rest) then [] else c :: beforeFirstOcc sep rest

/-- Remove leading whitespace characters. -/
def lstripChars : List Char → List Char
  | [] => []
  | c :: rest => if c.isWhitespace then lstripChars rest else c :: rest

/-- Python `str.strip()`: remove leading and trailing whitespace. -/
def stripChars (s : List Char) : List Char :=
  (lstripChars (lstripChars s.reverse).reverse)

/-- The response-cleanup pipeline of `Sin.chat` (src/sin.py lines 85-86):
`response.split("Sin:")[-1].strip()` then `.split("\n")[0].strip()`. -/
def chatClean (response : String) : String :=
  let s := stripChars (afterLastOcc "Sin:".data response.data)
  (stripChars (beforeFirstOcc "\n".data s)).asString

/-- `Sin.chat` (src/sin.py lines 63-97). `rawResponse` is the outcome of
the fallible steps up to and including `generate_response` (`none` = one
of them raised); `saveOk` tells whether the final
`memory.add_interaction(user_input, clean_response)` raises. Any raise is
caught and turned into the fixed error message; an empty cleaned response
becomes the fixed fallback message. -/
def sinChat (rawResponse : Option String) (saveOk : String → Bool) : String :=
  match rawResponse with
  | none => "Произошла ошибка при генерации ответа"
  | some r =>
    let c := chatClean r
    if saveOk c then
      if c = "" then "Не могу сформулировать ответ" else c
    else "Произошла ошибка при генерации ответа"

/-- Collaborators of `Sin.compare_models`, for a fixed test set:
`loadW p` is `torch.load(p)` (`none` = raise), `evalM w` is
`self.evaluate(test_dataset)` with weights `w` loaded (`none` = raise). -/
structure CompareEnv (W : Type) where
  loadW : String → Option W
  evalM : W → Option Metrics

/-- Python `Path(p).name`: the basename after the last `/`. -/
def pathName (p : String) : String := (afterLastOcc [ '/' ] p.data).asString

/-- One entry of `compare_models`' results dict: the metric mapping from
evaluation, plus the derived `improvement` mapping once added. -/
structure CompareResult where
  metrics : Metrics
  improvement : Option Metrics
deriving DecidableEq

/-- The `for path in model_paths` loop of `Sin.compare_models` (src/sin.py
lines 227-230), threading the live model's weights: each iteration loads
a snapshot (weights become the loaded value) and records the evaluation
under the path's basename. -/
def comparePhase1 {W : Type} (env : CompareEnv W) :
    List String → W → List (String × Metrics) →
    W × Except Unit (List (String × Metrics))
  | [], w, acc => (w, Except.ok acc)
  | p :: ps, w, acc =>
    match env.loadW p with
    | none => (w, Except.error ())
    | some w2 =>
      match env.evalM w2 with
      | none => (w2, Except.error ())
      | some ms => comparePhase1 env ps w2 (dinsert acc (pathName p) ms)

/-- The comprehension `{k: v - base[k] for k, v in metrics.items()}`
(src/sin.py line 238); a key of `metrics` missing from `base` raises
(KeyError). -/
def subBase (base : Metrics) : Metrics → Except Unit Metrics
  | [] => Except.ok []
  | (k, v) :: rest =>
    match dictGet base k with
    | none => Except.error ()
    | some b =>
      match subBase base rest with
      | Except.error e => Except.error e
      | Except.ok r => Except.ok ((k, v - b) :: r)

/-- The `for name, metrics in results.items()` loop of
`Sin.compare_models` (src/sin.py lines 236-239): every entry, the first
included, receives `improvement = metrics - base` per key. -/
def addImpList (base : Metrics) :
    List (String × Metrics) → Except Unit (List (String × CompareResult))
  | [] => Except.ok []
  | (n, m) :: rest =>
    match subBase base m with
    | Except.error e => Except.error e
    | Except.ok imp =>
      match addImpList base rest with
      | Except.error e => Except.error e
      | Except.ok rs => Except.ok ((n, ⟨m, some imp⟩) :: rs)

/-- `if len(results) > 1:` (src/sin.py line 234): with two or more result
entries, derive improvements against the first entry's metrics
(`base = next(iter(results.values()))`); otherwise the entries are
returned without an improvement mapping. -/
def addImprovements :
    List (String × Metrics) → Except Unit (List (String × CompareResult))
  | [] => Except.ok []
  | [(n, m)] => Except.ok [(n, ⟨m, none⟩)]
  | (n0, m0) :: r1 :: rest => addImpList m0 ((n0, m0) :: r1 :: rest)

/-- `Sin.compare_models` (src/sin.py lines 221-244). Returns the live
model's weights after the call together with the outcome. The original
weights `w0` are captured first (`state_dict()`); on the success path
they are re-loaded after the evaluation loop, and the `except` clause
also re-loads them before re-raising. -/
def compare_models {W : Type} (env : CompareEnv W) (w0 : W)
    (paths : List String) :
    W × Except Unit (List (String × CompareResult)) :=
  match comparePhase1 env paths w0 [] with
  | (_, Except.error e) => (w0, Except.error e)
  | (_, Except.ok results) =>
    match addImprovements results with
    | Except.error e => (w0, Except.error e)
    | Except.ok rs => (w0, Except.ok rs)

/-- Does the string end with the given suffix? -/
def strEndsWith (s sfx : String) : Bool :=
  isPre sfx.data.reverse s.data.reverse

/-- A directory entry of the models directory: file name and
last-modified time. -/
structure FileInfo where
  name : String
  mtime : Int
deriving DecidableEq

/-- The `glob('*.pt')` test of `Sin._cleanup_old_models`. -/
def isPt (f : FileInfo) : Bool := strEndsWith f.name ".pt"

/-- Stable descending insertion by mtime: an element moves before `g`
only when strictly more recent, so equal mtimes keep their original
relative order, as Python's stable `sorted(..., reverse=True)` does. -/
def insertByMtimeDesc (f : FileInfo) : List FileInfo → List FileInfo
  | [] => [f]
  | g :: gs =>
    if g.mtime < f.mtime then f :: g :: gs else g :: insertByMtimeDesc f gs

/-- `sorted(..., key=mtime, reverse=True)`: stable sort, most recent
first. -/
def sortByMtimeDesc : List FileInfo → List FileInfo
  | [] => []
  | f :: fs => insertByMtimeDesc f (sortByMtimeDesc fs)

/-- The pruning order of `Sin._cleanup_old_models`: all `.pt` files of
the models directory, most recently modified first. -/
def prunedOrder (fs : List FileInfo) : List FileInfo :=
  sortByMtimeDesc (fs.filter isPt)

/-- `Sin._cleanup_old_models` (src/sin.py lines 265-278): sort all `.pt`
files by mtime descending, then unlink every file past the first
`max_models`; a failed unlink (`unlinkOk name = false`) is logged and
skipped. Returns the directory contents after the loop. -/
def cleanup_old_models (fs : List FileInfo) (unlinkOk : String → Bool)
    (max_models : Nat) : List FileInfo :=
  ((prunedOrder fs).drop max_models).foldl
    (fun acc f =>
      if unlinkOk f.name then acc.filter (fun g => g.name != f.name) else acc)
    fs

/-- The conversations directory and the per-file collaborators of
`Sin._load_all_datasets`: the listing in iteration order; whether
`json.load` succeeds; whether the parsed data has a `'dialogues'` key;
and the trainer's two loaders (`none` = raise). A dataset is a list of
samples; `ConcatDataset` is concatenation. -/
structure FileEnv (α : Type) where
  listing : List String
  jsonLoadOk : String → Bool
  hasDialogues : String → Bool
  loadJson : String → Option (List α)
  loadText : String → Option (List α)

/-- `Sin._load_all_datasets` (src/sin.py lines 166-181): walk the
listing; `.json` files are parsed and, when they hold a `'dialogues'`
key, loaded via the structured loader; `.txt` files via the text loader;
any per-file failure is caught and the file skipped. Returns `None` when
no dataset was collected, else the concatenation. -/
def load_all_datasets {α : Type} (env : FileEnv α) : Option (List α) :=
  let ds := env.listing.foldl
    (fun acc fn =>
      if strEndsWith fn ".json" then
        if env.jsonLoadOk fn then
          if env.hasDialogues fn then
            match env.loadJson fn with
            | some d => acc ++ [d]
            | none => acc
          else acc
        else acc
      else if strEndsWith fn ".txt" then
        match env.loadText fn with
        | some d => acc ++ [d]
        | none => acc
      else acc)
    []
  if ds.isEmpty then none else some ds.flatten

/-- Spec-side description of one aggregation step (spec §4.1): what a
single file contributes — its dataset when its loader succeeds, nothing
when it is skipped or fails. -/
def loadedOf {α : Type} (env : FileEnv α) (fn : String) : Option (List α) :=
  if strEndsWith fn ".json" then
    if env.jsonLoadOk fn then
      if env.hasDialogues fn then env.loadJson fn else none
    else none
  else if strEndsWith fn ".txt" then env.loadText fn
  else none

/-- Spec-side aggregate (spec §4.1): the successfully loaded datasets in
directory-iteration order. -/
def aggSuccesses {α : Type} (env : FileEnv α) : List (List α) :=
  env.listing.filterMap (loadedOf env)

/-- The trainer/evaluator collaborators of `Sin.train` for a fixed
validation set: `batchLosses e` lists the scalar losses `train_step`
produces for the batches of epoch `e` (1-based), `valMetrics e` is the
evaluator's mapping for the validation run after epoch `e`. -/
structure TrainEnv where
  batchLosses : Nat → List Scalar
  valMetrics : Nat → Metrics

/-- The epoch accumulator `total_loss`: starts at 0, adds each batch's
scalar loss. -/
def sumLosses (l : List Scalar) : Scalar := l.foldl (fun a b => a + b) 0

/-- The `for epoch in range(epochs)` loop of `Sin.train` (src/sin.py
lines 121-151): per epoch, accumulate the batch losses, evaluate when a
validation set was supplied, and call `log_epoch(epoch+1, total_loss,
val_metrics)`. -/
def trainLoop (env : TrainEnv) (useVal : Bool) (mon : MonitorState)
    (epochs : Nat) : MonitorState :=
  (List.range epochs).foldl
    (fun m i =>
      logEpoch m (i + 1) (sumLosses (env.batchLosses (i + 1)))
        (if useVal then some (env.valMetrics (i + 1)) else none))
    mon

/-- `Sin.train` (src/sin.py lines 99-164): aggregate the datasets and
fail ("No training data found") when the result is falsy (`None` or
empty); run the epoch loop against the monitor; return
`monitor.current_log`. The optimizer, schedule, initial validation and
final save have no effect on the log. -/
def sinTrain {α : Type} (fenv : FileEnv α) (env : TrainEnv) (epochs : Nat)
    (useVal : Bool) (mon : MonitorState) : Except Unit CurrentLog :=
  match load_all_datasets fenv with
  | none => Except.error ()
  | some data =>
    if data.isEmpty then Except.error ()
    else Except.ok (trainLoop env useVal mon epochs).current_log

/-! ## Concrete inputs used by witnesses and counterexamples -/

/-- A monitor state whose `accuracy` series is `[5, 9, 9, 3]` (the spec's
`[0.5, 0.9, 0.9, 0.3]` example, scaled to exact scalars). -/
def exMonitor : MonitorState :=
  ⟨⟨[1, 2, 3, 4], [1, 1, 1, 1], [], [("accuracy", [5, 9, 9, 3])]⟩, none⟩

/-- Comparison collaborators with two loadable snapshots: `a.pt` (weights
1, accuracy 5) and `b.pt` (weights 2, accuracy 7). -/
def exCmpEnv : CompareEnv Nat :=
  ⟨fun p => if p == "a.pt" then some 1 else if p == "b.pt" then some 2 else none,
   fun w => if w == 1 then some [("acc", 5)] else some [("acc", 7)]⟩

/-- The first (baseline) entry that `compare_models` produces for
`exCmpEnv` on `["a.pt", "b.pt"]`. -/
def exEntryA : String × CompareResult := ("a.pt", ⟨[("acc", 5)], some [("acc", 0)]⟩)

/-- The second entry that `compare_models` produces for `exCmpEnv` on
`["a.pt", "b.pt"]`. -/
def exEntryB : String × CompareResult := ("b.pt", ⟨[("acc", 7)], some [("acc", 2)]⟩)

/-- A models directory holding the canonical latest slot `sin_model.pt`
(oldest) plus five newer versioned snapshots. -/
def exStore : List FileInfo :=
  [⟨"sin_model.pt", 0⟩, ⟨"v1.pt", 1⟩, ⟨"v2.pt", 2⟩, ⟨"v3.pt", 3⟩,
   ⟨"v4.pt", 4⟩, ⟨"v5.pt", 5⟩]

/-- A store of 8 versioned snapshots with distinct mtimes 1..8. -/
def exStore8 : List FileInfo :=
  [⟨"v1.pt", 1⟩, ⟨"v2.pt", 2⟩, ⟨"v3.pt", 3⟩, ⟨"v4.pt", 4⟩,
   ⟨"v5.pt", 5⟩, ⟨"v6.pt", 6⟩, ⟨"v7.pt", 7⟩, ⟨"v8.pt", 8⟩]

/-- A conversations directory with a single loadable text file holding a
one-sample dataset. -/
def exFenv : FileEnv Unit :=
  ⟨["d.txt"], fun _ => true, fun _ => false, fun _ => none, fun _ => some [()]⟩

/-- A trainer that yields one batch with loss 1 every epoch, and an
evaluator that reports accuracy 9 every epoch. -/
def exTrainEnv : TrainEnv := ⟨fun _ => [1], fun _ => [("accuracy", 9)]⟩

/-! ## Helper lemmas -/

theorem dictGet_cons {β : Type} (a : String) (b : β) (t : List (String × β))
    (k : String) :
    dictGet ((a, b) :: t) k = if a == k then some b else dictGet t k := by
  by_cases h : a == k <;> simp [dictGet, List.find?, h]

theorem appendTracked_keys (m : List (String × List Scalar)) (n : String)
    (v : Scalar) : (appendTracked m n v).map Prod.fst = m.map Prod.fst := by
  induction m with
  | nil => rfl
  | cons p t ih =>
    have hfst :
        ((if p.1 == n then (p.1, p.2 ++ [v]) else p) : String × List Scalar).1
          = p.1 := by
      by_cases h : p.1 == n <;> simp [h]
    calc (appendTracked (p :: t) n v).map Prod.fst
        = (if p.1 == n then (p.1, p.2 ++ [v]) else p).1 ::
            (appendTracked t n v).map Prod.fst := rfl
      _ = p.1 :: t.map Prod.fst := by rw [hfst, ih]

theorem dictGet_appendTracked (m : List (String × List Scalar)) (n : String)
    (v : Scalar) (k : String) :
    dictGet (appendTracked m n v) k =
      (dictGet m k).map (fun s => if k == n then s ++ [v] else s) := by
  induction m with
  | nil => rfl
  | cons p t ih =>
    rcases p with ⟨a, b⟩
    by_cases han : (a == n) = true
    · have han' : a = n := by simpa using han
      have e : appendTracked ((a, b) :: t) n v =
          (a, b ++ [v]) :: appendTracked t n v := by
        simp [appendTracked, han']
      rw [e, dictGet_cons, dictGet_cons]
      by_cases hak : (a == k) = true
      · have hka : k = a := (by simpa using hak : a = k).symm
        have hkn : (k == n) = true := by rw [hka]; exact han
        simp [hak, hkn]
      · simp [hak, ih]
    · have han' : ¬ a = n := by simpa using han
      have e : appendTracked ((a, b) :: t) n v =
          (a, b) :: appendTracked t n v := by
        simp [appendTracked, han']
      rw [e, dictGet_cons, dictGet_cons]
      by_cases hak : (a == k) = true
      · have hka : k = a := (by simpa using hak : a = k).symm
        have hkn : (k == n) = false := by
          rw [hka]
          simpa using han
        simp [hak, hkn]
      · simp [hak, ih]

theorem foldAppend_keys (ms : Metrics) (m : List (String × List Scalar)) :
    ((ms.foldl (fun acc p => appendTracked acc p.1 p.2) m).map Prod.fst) =
      m.map Prod.fst := by
  induction ms generalizing m with
  | nil => rfl
  | cons p t ih => rw [List.foldl_cons, ih, appendTracked_keys]

theorem dictGet_foldAppend (ms : Metrics) (m : List (String × List Scalar))
    (k : String) :
    dictGet (ms.foldl (fun acc p => appendTracked acc p.1 p.2) m) k =
      (dictGet m k).map
        (fun s => s ++ (ms.filter (fun p => p.1 == k)).map (fun p => p.2)) := by
  induction ms generalizing m with
  | nil => cases h : dictGet m k <;> simp [h]
  | cons p t ih =>
    rw [List.foldl_cons, ih, dictGet_appendTracked]
    by_cases hk : k = p.1
    · rw [hk]
      cases h : dictGet m p.1 <;>
        simp [h, List.filter_cons, List.append_assoc]
    · have h1 : (k == p.1) = false := by simpa using hk
      have h2 : (p.1 == k) = false := by
        simp only [beq_eq_false_iff_ne, ne_eq]
        exact fun e => hk e.symm
      cases h : dictGet m k <;> simp [h, List.filter_cons, h1, h2]

theorem logEpoch_metrics_keys (st : MonitorState) (e : Nat) (l : Scalar)
    (ms : Option Metrics) :
    (logEpoch st e l ms).current_log.metrics.map Prod.fst =
      st.current_log.metrics.map Prod.fst := by
  rcases ms with _ | ms
  · rfl
  · by_cases h : ms.isEmpty <;> simp [logEpoch, h, foldAppend_keys]

theorem logEpoch_dictGet (st : MonitorState) (e : Nat) (l : Scalar)
    (ms : Option Metrics) (k : String) :
    dictGet (logEpoch st e l ms).current_log.metrics k =
      (dictGet st.current_log.metrics k).map (fun s => s ++ valuesFor k ms) := by
  rcases ms with _ | ms
  · cases h : dictGet st.current_log.metrics k <;> simp [logEpoch, valuesFor, h]
  · by_cases h : ms.isEmpty
    · have : ms = [] := by simpa [List.isEmpty_iff] using h
      subst this
      cases hm : dictGet st.current_log.metrics k <;>
        simp [logEpoch, valuesFor, hm]
    · simp only [logEpoch, h]
      simpa [valuesFor] using
        dictGet_foldAppend ms st.current_log.metrics k

theorem logEpoch_epochs (st : MonitorState) (e : Nat) (l : Scalar)
    (ms : Option Metrics) :
    (logEpoch st e l ms).current_log.epochs =
      st.current_log.epochs ++ [e] := by
  rcases ms with _ | ms
  · rfl
  · by_cases h : ms.isEmpty <;> simp [logEpoch, h]

theorem logEpoch_train_loss (st : MonitorState) (e : Nat) (l : Scalar)
    (ms : Option Metrics) :
    (logEpoch st e l ms).current_log.train_loss =
      st.current_log.train_loss ++ [l] := by
  rcases ms with _ | ms
  · rfl
  · by_cases h : ms.isEmpty <;> simp [logEpoch, h]

theorem le_foldl_max (xs : List Scalar) (x : Scalar) : x ≤ xs.foldl max x := by
  induction xs generalizing x with
  | nil => exact le_refl x
  | cons y ys ih => exact le_trans (le_max_left x y) (ih (max x y))

theorem mem_le_foldl_max (xs : List Scalar) (x a : Scalar) (h : a ∈ xs) :
    a ≤ xs.foldl max x := by
  induction xs generalizing x with
  | nil => cases h
  | cons y ys ih =>
    rcases List.mem_cons.mp h with rfl | h2
    · exact le_trans (le_max_right x a) (le_foldl_max ys (max x a))
    · exact ih (max x y) h2

theorem foldl_max_mem (xs : List Scalar) (x : Scalar) :
    xs.foldl max x ∈ x :: xs := by
  induction xs generalizing x with
  | nil => simp
  | cons y ys ih =>
    have h0 : (y :: ys).foldl max x = ys.foldl max (max x y) := rfl
    rcases List.mem_cons.mp (ih (max x y)) with h | h
    · have he : (y :: ys).foldl max x = max x y := h0.trans h
      rcases max_choice x y with hm | hm
      · rw [he, hm]
        exact List.mem_cons_self x (y :: ys)
      · rw [he, hm]
        exact List.mem_cons_of_mem _ (List.mem_cons_self y ys)
    · rw [h0]
      exact List.mem_cons_of_mem _ (List.mem_cons_of_mem _ h)

theorem le_listMax (x : Scalar) (xs : List Scalar) (a : Scalar)
    (h : a ∈ x :: xs) : a ≤ listMax (x :: xs) := by
  rcases List.mem_cons.mp h with rfl | h2
  · exact le_foldl_max xs a
  · exact mem_le_foldl_max xs x a h2

/-- Claim C1: a freshly constructed `TrainingMonitor` has been reset: the
current log has no epoch records, no losses and an empty tracked-metric
mapping, the empty log has been written to durable storage, and
`log_epoch` can run against it. -/
theorem claim1_reset_on_construction :
    monitorInit.current_log.epochs = [] ∧
    monitorInit.current_log.train_loss = [] ∧
    monitorInit.current_log.val_loss = [] ∧
    monitorInit.current_log.metrics = [] ∧
    monitorInit.disk = some monitorInit.current_log ∧
    (logEpoch monitorInit 1 0 none).current_log.epochs = [1] ∧
    (logEpoch monitorInit 1 0 none).current_log.train_loss = [0] :=
  ⟨rfl, rfl, rfl, rfl, rfl, rfl, rfl⟩

/-- Claim C2 counterexample: on a freshly constructed monitor, the first
`log_epoch` carrying non-empty metrics does NOT fix the tracked names:
the metrics mapping stays empty, so `accuracy` is not tracked afterwards
and its value was silently dropped rather than starting a series. -/
theorem claim2_counterexample :
    (logEpoch monitorInit 1 5
        (some [("accuracy", 9)])).current_log.metrics = [] ∧
    dictGet (logEpoch monitorInit 1 5
        (some [("accuracy", 9)])).current_log.metrics "accuracy" = none :=
  ⟨rfl, rfl⟩

/-- Claim C2 as amended: `log_epoch` never changes the tracked-metric-name
set (in particular the first non-empty validation does not fix or extend
it; after the spec's `reset_logs` the set is empty forever), and for every
name `k` the series of `k` after `log_epoch` is its previous series
extended with exactly the values supplied for `k` — tracked names get
their values appended, unrecognized names are silently dropped. -/
theorem claim2_amended (st : MonitorState) (e : Nat) (l : Scalar)
    (ms : Option Metrics) (k : String) :
    (logEpoch st e l ms).current_log.metrics.map Prod.fst =
      st.current_log.metrics.map Prod.fst ∧
    dictGet (logEpoch st e l ms).current_log.metrics k =
      (dictGet st.current_log.metrics k).map (fun s => s ++ valuesFor k ms) :=
  ⟨logEpoch_metrics_keys st e l ms, logEpoch_dictGet st e l ms k⟩

/-- Claim C2 witness: on a monitor tracking `accuracy` with series
`[5, 9, 9, 3]`, logging metrics `accuracy = 7` and `loss = 3` appends to
the tracked `accuracy` series and silently drops the untracked `loss`. -/
theorem claim2_witness :
    dictGet (logEpoch exMonitor 5 1
        (some [("accuracy", 7), ("loss", 3)])).current_log.metrics "accuracy"
      = some [5, 9, 9, 3, 7] ∧
    dictGet (logEpoch exMonitor 5 1
        (some [("accuracy", 7), ("loss", 3)])).current_log.metrics "loss"
      = none :=
  ⟨((claim2_amended exMonitor 5 1 (some [("accuracy", 7), ("loss", 3)])
      "accuracy").2).trans (by rfl),
   ((claim2_amended exMonitor 5 1 (some [("accuracy", 7), ("loss", 3)])
      "loss").2).trans (by rfl)⟩

/-- Claim C3: `get_best_epoch` returns `-1` when the metric has no
recorded values (absent name or empty series); otherwise it returns
`i + 1` where `i` is the first (smallest) 0-based index at which the
series attains its maximum — a stable argmax. -/
theorem claim3_get_best_epoch (st : MonitorState) (metric : String) :
    ((dictGet st.current_log.metrics metric = none ∨
        dictGet st.current_log.metrics metric = some []) →
      get_best_epoch st metric = -1) ∧
    (∀ s, dictGet st.current_log.metrics metric = some s → s ≠ [] →
      ∃ i, ∃ hi : i < s.length,
        get_best_epoch st metric = Int.ofNat i + 1 ∧
        (∀ j, ∀ hj : j < s.length, s.get ⟨j, hj⟩ ≤ s.get ⟨i, hi⟩) ∧
        (∀ j, ∀ hj : j < i, s.get ⟨j, Nat.lt_trans hj hi⟩ < s.get ⟨i, hi⟩)) := by
  cases h : dictGet st.current_log.metrics metric with
  | none =>
    refine ⟨fun _ => ?_, fun s hs _ => by cases hs⟩
    simp [get_best_epoch, h]
  | some s =>
    cases s with
    | nil =>
      refine ⟨fun _ => by simp [get_best_epoch, h], fun s hs hne => ?_⟩
      injection hs with hs2
      subst hs2
      exact absurd rfl hne
    | cons x xs =>
      constructor
      · intro h1
        rcases h1 with h1 | h1 <;> simp at h1
      · intro s hs hne
        injection hs with hs2
        subst hs2
        have hmem : listMax (x :: xs) ∈ x :: xs := foldl_max_mem xs x
        have hex : ∃ v ∈ x :: xs, (v == listMax (x :: xs)) = true :=
          ⟨listMax (x :: xs), hmem, by simp⟩
        have hi : (x :: xs).findIdx (fun v => v == listMax (x :: xs)) <
            (x :: xs).length := List.findIdx_lt_length_of_exists hex
        refine ⟨(x :: xs).findIdx (fun v => v == listMax (x :: xs)), hi,
          ?_, ?_, ?_⟩
        · simp [get_best_epoch, h]
        · have hval : (x :: xs).get
              ⟨(x :: xs).findIdx (fun v => v == listMax (x :: xs)), hi⟩ =
              listMax (x :: xs) := by
            have := @List.findIdx_getElem _ (fun v => v == listMax (x :: xs))
              (x :: xs) hi
            simpa [List.get_eq_getElem] using this
          intro j hj
          rw [hval]
          exact le_listMax x xs _ (List.get_mem (x :: xs) j hj)
        · have hval : (x :: xs).get
              ⟨(x :: xs).findIdx (fun v => v == listMax (x :: xs)), hi⟩ =
              listMax (x :: xs) := by
            have := @List.findIdx_getElem _ (fun v => v == listMax (x :: xs))
              (x :: xs) hi
            simpa [List.get_eq_getElem] using this
          intro j hj
          have hne2 : ((x :: xs).get ⟨j, Nat.lt_trans hj hi⟩ ==
              listMax (x :: xs)) = false := by
            have := @List.not_of_lt_findIdx _
              (fun v => v == listMax (x :: xs)) (x :: xs) j hj
            simpa [List.get_eq_getElem] using this
          have hle : (x :: xs).get ⟨j, Nat.lt_trans hj hi⟩ ≤
              listMax (x :: xs) :=
            le_listMax x xs _ (List.get_mem (x :: xs) j (Nat.lt_trans hj hi))
          rw [hval]
          exact lt_of_le_of_ne hle (by simpa using hne2)

/-- Claim C3 witness: on the series `[5, 9, 9, 3]` (the spec's
`[0.5, 0.9, 0.9, 0.3]` scaled), the best epoch is 2 — the first of the
two tied maxima. -/
theorem claim3_witness :
    dictGet exMonitor.current_log.metrics "accuracy" = some [5, 9, 9, 3] ∧
    get_best_epoch exMonitor "accuracy" = 2 ∧
    (∃ i, ∃ hi : i < ([5, 9, 9, 3] : List Scalar).length,
      get_best_epoch exMonitor "accuracy" = Int.ofNat i + 1 ∧
      (∀ j, ∀ hj : j < ([5, 9, 9, 3] : List Scalar).length,
        ([5, 9, 9, 3] : List Scalar).get ⟨j, hj⟩ ≤
          ([5, 9, 9, 3] : List Scalar).get ⟨i, hi⟩) ∧
      (∀ j, ∀ hj : j < i,
        ([5, 9, 9, 3] : List Scalar).get ⟨j, Nat.lt_trans hj hi⟩ <
          ([5, 9, 9, 3] : List Scalar).get ⟨i, hi⟩)) :=
  ⟨rfl, by rfl,
   (claim3_get_best_epoch exMonitor "accuracy").2 [5, 9, 9, 3] rfl
     (by decide)⟩

/-- Claim C9: `Sin.evaluate` returns the empty mapping for a falsy dataset
(`None` or empty) without consulting the evaluator (the result is `[]` for
every evaluator), and for a non-empty dataset it returns exactly the
evaluator's result. -/
theorem claim9_evaluate {α : Type} (dataset : Option (List α)) (n : Nat) :
    ((dataset = none ∨ dataset = some []) →
      ∀ f, sinEvaluate dataset f n = []) ∧
    (∀ d, dataset = some d → d ≠ [] →
      ∀ f, sinEvaluate dataset f n = f d n) := by
  constructor
  · rintro (rfl | rfl) f <;> rfl
  · rintro d rfl hd f
    have he : d.isEmpty = false := by
      simpa [List.isEmpty_iff] using hd
    simp [sinEvaluate, he]

/-- Claim C9 witness: the empty dataset yields `{}` whatever the evaluator
would say; a one-sample dataset yields the evaluator's mapping. -/
theorem claim9_witness :
    sinEvaluate (some ([] : List Nat)) (fun _ _ => [("acc", 1)]) 100 = [] ∧
    sinEvaluate (some [7]) (fun _ _ => [("acc", 1)]) 100 = [("acc", 1)] :=
  ⟨(claim9_evaluate (some ([] : List Nat)) 100).1 (Or.inr rfl) _,
   (claim9_evaluate (some [7]) 100).2 [7] rfl (by decide) _⟩

/-- Claim C10: `Sin.chat` always returns a non-empty string: any internal
raise (memory, generation, or the final memory save) is caught and
becomes the fixed error message, an empty cleaned response becomes the
fixed fallback message, and otherwise the cleaned response itself — never
the empty string and never a propagated exception. -/
theorem claim10_chat (raw : Option String) (saveOk : String → Bool) :
    sinChat raw saveOk ≠ "" ∧
    (raw = none →
      sinChat raw saveOk = "Произошла ошибка при генерации ответа") ∧
    (∀ r, raw = some r → saveOk (chatClean r) = false →
      sinChat raw saveOk = "Произошла ошибка при генерации ответа") ∧
    (∀ r, raw = some r → saveOk (chatClean r) = true → chatClean r = "" →
      sinChat raw saveOk = "Не могу сформулировать ответ") ∧
    (∀ r, raw = some r → saveOk (chatClean r) = true → chatClean r ≠ "" →
      sinChat raw saveOk = chatClean r) := by
  rcases raw with _ | r
  · refine ⟨?_, fun _ => rfl, fun r h => Option.noConfusion h,
      fun r h => Option.noConfusion h, fun r h => Option.noConfusion h⟩
    show ("Произошла ошибка при генерации ответа" : String) ≠ ""
    decide
  · have key : sinChat (some r) saveOk =
        if saveOk (chatClean r) then
          (if chatClean r = "" then "Не могу сформулировать ответ"
            else chatClean r)
        else "Произошла ошибка при генерации ответа" := rfl
    by_cases hs : saveOk (chatClean r) = true
    · by_cases hc : chatClean r = ""
      · have he : sinChat (some r) saveOk = "Не могу сформулировать ответ" := by
          rw [key, if_pos hs, if_pos hc]
        refine ⟨by rw [he]; decide, fun h => Option.noConfusion h, ?_,
          fun _ _ _ _ => he, ?_⟩
        · rintro r' hr' hsf
          injection hr' with e
          subst e
          exact absurd hs (by simp [hsf])
        · rintro r' hr' _ hne
          injection hr' with e
          subst e
          exact absurd hc hne
      · have he : sinChat (some r) saveOk = chatClean r := by
          rw [key, if_pos hs, if_neg hc]
        refine ⟨by rw [he]; exact hc, fun h => Option.noConfusion h, ?_, ?_, ?_⟩
        · rintro r' hr' hsf
          injection hr' with e
          subst e
          exact absurd hs (by simp [hsf])
        · rintro r' hr' _ hcz
          injection hr' with e
          subst e
          exact absurd hcz hc
        · rintro r' hr' _ _
          injection hr' with e
          subst e
          exact he
    · have hsf : saveOk (chatClean r) = false := by
        simpa using hs
      have he : sinChat (some r) saveOk =
          "Произошла ошибка при генерации ответа" := by
        rw [key, if_neg hs]
      refine ⟨by rw [he]; decide, fun h => Option.noConfusion h, fun _ _ _ => he,
        ?_, ?_⟩
      · rintro r' hr' hst _
        injection hr' with e
        subst e
        exact absurd hst hs
      · rintro r' hr' hst _
        injection hr' with e
        subst e
        exact absurd hst hs

/-- Claim C10 witness: the three return shapes at concrete inputs — a
cleaned response, the error message after an internal raise, and the
fallback for a whitespace-only response. -/
theorem claim10_witness :
    sinChat (some "Hello\nSin: Привет\nmore") (fun _ => true) = "Привет" ∧
    sinChat none (fun _ => true) = "Произошла ошибка при генерации ответа" ∧
    sinChat (some "   ") (fun _ => true) = "Не могу сформулировать ответ" :=
  ⟨((claim10_chat (some "Hello\nSin: Привет\nmore") (fun _ => true)).2.2.2.2
      "Hello\nSin: Привет\nmore" rfl (by rfl) (by decide)).trans (by decide),
   (claim10_chat none (fun _ => true)).2.1 rfl,
   (claim10_chat (some "   ") (fun _ => true)).2.2.2.1 "   " rfl (by rfl)
     (by decide)⟩

theorem subBase_keys (base m imp : Metrics)
    (h : subBase base m = Except.ok imp) :
    imp.map Prod.fst = m.map Prod.fst := by
  induction m generalizing imp with
  | nil =>
    injection h with h2
    subst h2
    rfl
  | cons p t ih =>
    rcases p with ⟨k, v⟩
    cases hb : dictGet base k with
    | none => simp [subBase, hb] at h
    | some b =>
      cases hs : subBase base t with
      | error e => simp [subBase, hb, hs] at h
      | ok r =>
        simp [subBase, hb, hs] at h
        subst h
        simpa using ih r hs

theorem subBase_dictGet (base m imp : Metrics)
    (h : subBase base m = Except.ok imp) (k : String) (v b : Scalar)
    (hm : dictGet m k = some v) (hb : dictGet base k = some b) :
    dictGet imp k = some (v - b) := by
  induction m generalizing imp with
  | nil => simp [dictGet] at hm
  | cons p t ih =>
    rcases p with ⟨k', v'⟩
    rw [dictGet_cons] at hm
    by_cases hkk : (k' == k) = true
    · rw [if_pos hkk] at hm
      injection hm with hv
      subst hv
      have hk : k' = k := by simpa using hkk
      subst hk
      cases hs : subBase base t with
      | error e => simp [subBase, hb, hs] at h
      | ok r =>
        simp [subBase, hb, hs] at h
        subst h
        rw [dictGet_cons, if_pos (by simp : (k' == k') = true)]
    · rw [if_neg hkk] at hm
      cases hb' : dictGet base k' with
      | none => simp [subBase, hb'] at h
      | some b' =>
        cases hs : subBase base t with
        | error e => simp [subBase, hb', hs] at h
        | ok r =>
          simp [subBase, hb', hs] at h
          subst h
          rw [dictGet_cons, if_neg hkk]
          exact ih r hs hm

theorem addImpList_mem (base : Metrics) (l : List (String × Metrics))
    (out : List (String × CompareResult))
    (h : addImpList base l = Except.ok out) :
    ∀ p ∈ out, ∃ n m imp, p = (n, ⟨m, some imp⟩) ∧
      subBase base m = Except.ok imp := by
  induction l generalizing out with
  | nil =>
    injection h with h2
    subst h2
    intro p hp
    exact absurd hp (List.not_mem_nil p)
  | cons q t ih =>
    rcases q with ⟨n, m⟩
    cases hsb : subBase base m with
    | error e => simp [addImpList, hsb] at h
    | ok imp =>
      cases hrest : addImpList base t with
      | error e => simp [addImpList, hsb, hrest] at h
      | ok rs =>
        simp [addImpList, hsb, hrest] at h
        subst h
        intro p hp
        rcases List.mem_cons.mp hp with rfl | hp2
        · exact ⟨n, m, imp, rfl, hsb⟩
        · exact ih rs hrest p hp2

theorem addImpList_head (base : Metrics) (n0 : String) (m0 : Metrics)
    (t : List (String × Metrics)) (out : List (String × CompareResult))
    (h : addImpList base ((n0, m0) :: t) = Except.ok out) :
    ∃ imp0 rest, subBase base m0 = Except.ok imp0 ∧
      out = (n0, ⟨m0, some imp0⟩) :: rest := by
  cases hsb : subBase base m0 with
  | error e => simp [addImpList, hsb] at h
  | ok imp =>
    cases hrest : addImpList base t with
    | error e => simp [addImpList, hsb, hrest] at h
    | ok rs =>
      simp [addImpList, hsb, hrest] at h
      exact ⟨imp, rs, rfl, h.symm⟩

/-- Claim C4: `compare_models` leaves the live model's weights equal to
their value before the call, on the normal-return path and on every
exception path (failed snapshot load, failed evaluation, failed
improvement derivation). -/
theorem claim4_compare_restores {W : Type} (env : CompareEnv W) (w0 : W)
    (paths : List String) : (compare_models env w0 paths).1 = w0 := by
  cases hp : comparePhase1 env paths w0 [] with
  | mk w e =>
    cases e with
    | error e => simp [compare_models, hp]
    | ok rs =>
      cases ha : addImprovements rs with
      | error e2 => simp [compare_models, hp, ha]
      | ok rs2 => simp [compare_models, hp, ha]

/-- Claim C4 witness: the weights come back to their original value 0
both on a successful comparison and on one that raises (a missing
snapshot path). -/
theorem claim4_witness :
    (compare_models exCmpEnv 0 ["a.pt", "b.pt"]).1 = 0 ∧
    (compare_models exCmpEnv 0 ["missing.pt"]).1 = 0 :=
  ⟨claim4_compare_restores exCmpEnv 0 ["a.pt", "b.pt"],
   claim4_compare_restores exCmpEnv 0 ["missing.pt"]⟩

/-- Claim C5 counterexample: comparing `a.pt` (acc 5) against `b.pt`
(acc 7), the FIRST (baseline) result also gains an `improvement` mapping
(all zeros) — the claim says only the results after the first gain one. -/
theorem claim5_counterexample :
    (compare_models exCmpEnv 0 ["a.pt", "b.pt"]).2 =
      Except.ok [exEntryA, exEntryB] ∧ exEntryA.2.improvement ≠ none :=
  ⟨rfl, by decide⟩

/-- Claim C5 as amended: when `compare_models` returns more than one
result, EVERY result — the first (baseline) included — gains an
`improvement` mapping whose keys are that result's metric keys and whose
value at each key is that result's metric minus the first result's same
metric (so the baseline's own improvement is all zeros). -/
theorem claim5_amended {W : Type} (env : CompareEnv W) (w0 : W)
    (paths : List String) (r0 : String × CompareResult)
    (rest : List (String × CompareResult))
    (h : (compare_models env w0 paths).2 = Except.ok (r0 :: rest))
    (hne : rest ≠ []) :
    ∀ p ∈ r0 :: rest, ∃ imp, p.2.improvement = some imp ∧
      imp.map Prod.fst = p.2.metrics.map Prod.fst ∧
      ∀ k v b, dictGet p.2.metrics k = some v →
        dictGet r0.2.metrics k = some b → dictGet imp k = some (v - b) := by
  unfold compare_models at h
  cases hp : comparePhase1 env paths w0 [] with
  | mk w e =>
    rw [hp] at h
    cases e with
    | error e => simp at h
    | ok results =>
      simp only at h
      cases ha : addImprovements results with
      | error e2 => rw [ha] at h; simp at h
      | ok rs2 =>
        rw [ha] at h
        simp only at h
        injection h with h2
        subst h2
        cases results with
        | nil => simp [addImprovements] at ha
        | cons q0 qt =>
          cases qt with
          | nil =>
            rcases q0 with ⟨n, m⟩
            simp [addImprovements] at ha
            exact absurd ha.2 hne
          | cons q1 qt2 =>
            rcases q0 with ⟨n0, m0⟩
            have ha2 : addImpList m0 ((n0, m0) :: q1 :: qt2) =
                Except.ok (r0 :: rest) := by
              simpa [addImprovements] using ha
            obtain ⟨imp0, rest2, hsb0, hout⟩ :=
              addImpList_head m0 n0 m0 (q1 :: qt2) _ ha2
            have hr0 : r0 = (n0, ⟨m0, some imp0⟩) := by
              injection hout with h1 h2
            intro p hp2
            obtain ⟨n, m, imp, hpe, hsb⟩ :=
              addImpList_mem m0 _ _ ha2 p hp2
            subst hpe
            refine ⟨imp, rfl, subBase_keys m0 m imp hsb, ?_⟩
            intro k v b hv hb
            have hb0 : dictGet m0 k = some b := by
              rw [hr0] at hb
              exact hb
            exact subBase_dictGet m0 m imp hsb k v b hv hb0

/-- Claim C5 witness (for the amended claim): in the two-model comparison
`["a.pt", "b.pt"]`, the second result carries an improvement mapping with
value `metrics(B) - metrics(A)` at each metric key. -/
theorem claim5_witness :
    ∃ imp, exEntryB.2.improvement = some imp ∧
      imp.map Prod.fst = exEntryB.2.metrics.map Prod.fst ∧
      ∀ k v b, dictGet exEntryB.2.metrics k = some v →
        dictGet exEntryA.2.metrics k = some b →
        dictGet imp k = some (v - b) :=
  claim5_amended exCmpEnv 0 ["a.pt", "b.pt"] exEntryA [exEntryB]
    (by rfl) (List.cons_ne_nil exEntryB [])
    exEntryB (List.mem_cons_of_mem exEntryA (List.mem_cons_self exEntryB []))

theorem loadFold_eq {α : Type} (env : FileEnv α) (l : List String)
    (acc : List (List α)) :
    l.foldl
      (fun acc fn =>
        if strEndsWith fn ".json" then
          if env.jsonLoadOk fn then
            if env.hasDialogues fn then
              match env.loadJson fn with
              | some d => acc ++ [d]
              | none => acc
            else acc
          else acc
        else if strEndsWith fn ".txt" then
          match env.loadText fn with
          | some d => acc ++ [d]
          | none => acc
        else acc)
      acc = acc ++ l.filterMap (loadedOf env) := by
  induction l generalizing acc with
  | nil => simp
  | cons fn t ih =>
    rw [List.foldl_cons, ih, List.filterMap_cons]
    by_cases h1 : strEndsWith fn ".json"
    · by_cases h2 : env.jsonLoadOk fn
      · by_cases h3 : env.hasDialogues fn
        · cases h4 : env.loadJson fn <;>
            simp [loadedOf, h1, h2, h3, h4, List.append_assoc]
        · simp [loadedOf, h1, h2, h3]
      · simp [loadedOf, h1, h2]
    · by_cases h5 : strEndsWith fn ".txt"
      · cases h6 : env.loadText fn <;>
          simp [loadedOf, h1, h5, h6, List.append_assoc]
      · simp [loadedOf, h1, h5]

/-- Claim C7: dataset aggregation equals the spec-side description — it
returns `None` exactly when no file loaded successfully (every per-file
failure is absorbed without aborting the others), and otherwise the
concatenation of the successfully loaded datasets in directory-iteration
order. -/
theorem claim7_aggregation {α : Type} (env : FileEnv α) :
    load_all_datasets env =
      (if (aggSuccesses env).isEmpty then none
        else some (aggSuccesses env).flatten) ∧
    (load_all_datasets env = none ↔ aggSuccesses env = []) := by
  have he : load_all_datasets env =
      (if (aggSuccesses env).isEmpty then none
        else some (aggSuccesses env).flatten) := by
    simp only [load_all_datasets, aggSuccesses]
    rw [loadFold_eq env env.listing []]
    simp
  refine ⟨he, ?_⟩
  rw [he]
  by_cases h : (aggSuccesses env).isEmpty
  · have h2 : aggSuccesses env = [] := by simpa [List.isEmpty_iff] using h
    simp [h, h2]
  · have h2 : ¬ aggSuccesses env = [] := by
      simpa [List.isEmpty_iff] using h
    simp [h, h2]

/-- Claim C7 witness: one malformed file among three is skipped with the
other two aggregated in listing order, and an all-failing directory
yields `None`. -/
theorem claim7_witness :
    load_all_datasets
      (⟨["a.json", "bad.json", "b.txt"], fun fn => fn != "bad.json",
        fun _ => true, fun _ => some [1, 2], fun _ => some [3]⟩ :
        FileEnv Nat) = some [1, 2, 3] ∧
    load_all_datasets
      (⟨["bad.json"], fun _ => false, fun _ => true, fun _ => some [1],
        fun _ => some [2]⟩ : FileEnv Nat) = none :=
  ⟨((claim7_aggregation
      (⟨["a.json", "bad.json", "b.txt"], fun fn => fn != "bad.json",
        fun _ => true, fun _ => some [1, 2], fun _ => some [3]⟩ :
        FileEnv Nat)).1).trans (by rfl),
   ((claim7_aggregation
      (⟨["bad.json"], fun _ => false, fun _ => true, fun _ => some [1],
        fun _ => some [2]⟩ : FileEnv Nat)).1).trans (by rfl)⟩

theorem trainLoop_succ (env : TrainEnv) (useVal : Bool) (mon : MonitorState)
    (n : Nat) :
    trainLoop env useVal mon (n + 1) =
      logEpoch (trainLoop env useVal mon n) (n + 1)
        (sumLosses (env.batchLosses (n + 1)))
        (if useVal then some (env.valMetrics (n + 1)) else none) := by
  unfold trainLoop
  rw [List.range_succ, List.foldl_append]
  rfl

theorem trainLoop_epochs (env : TrainEnv) (useVal : Bool) (mon : MonitorState)
    (n : Nat) :
    (trainLoop env useVal mon n).current_log.epochs =
      mon.current_log.epochs ++ (List.range n).map (fun i => i + 1) := by
  induction n with
  | zero => simp [trainLoop]
  | succ n ih =>
    rw [trainLoop_succ, logEpoch_epochs, ih, List.range_succ]
    simp

theorem trainLoop_train_loss (env : TrainEnv) (useVal : Bool)
    (mon : MonitorState) (n : Nat) :
    (trainLoop env useVal mon n).current_log.train_loss =
      mon.current_log.train_loss ++
        (List.range n).map (fun i => sumLosses (env.batchLosses (i + 1))) := by
  induction n with
  | zero => simp [trainLoop]
  | succ n ih =>
    rw [trainLoop_succ, logEpoch_train_loss, ih, List.range_succ]
    simp

theorem trainLoop_keys (env : TrainEnv) (useVal : Bool) (mon : MonitorState)
    (n : Nat) :
    (trainLoop env useVal mon n).current_log.metrics.map Prod.fst =
      mon.current_log.metrics.map Prod.fst := by
  induction n with
  | zero => rfl
  | succ n ih => rw [trainLoop_succ, logEpoch_metrics_keys, ih]

/-- Claim C8 counterexample: the spec's end-to-end scenario (2 epochs,
validation set supplied, one batch of loss 1 per epoch, evaluator
reporting accuracy 9 each epoch) on a freshly constructed monitor yields
`epochs = [1, 2]` and `train_loss = [1, 1]` as claimed, but the log's
`metrics` mapping is EMPTY — nothing was populated from the two
evaluator calls, because no metric name is tracked after `reset_logs`. -/
theorem claim8_counterexample :
    sinTrain exFenv exTrainEnv 2 true monitorInit =
      Except.ok ⟨[1, 2], [1, 1], [], []⟩ ∧
    dictGet (⟨[1, 2], [1, 1], [], []⟩ : CurrentLog).metrics "accuracy" =
      none :=
  ⟨rfl, rfl⟩

/-- Claim C8 as amended: whenever aggregation yields a non-empty dataset,
training succeeds and returns a log whose epochs are the previous ones
extended by `1..epoch_count`, whose train losses are extended by the
per-epoch sums of the per-batch scalar losses, and whose tracked-metric
names are unchanged — in particular, starting from the freshly reset
monitor the metrics mapping stays empty, the evaluator's per-epoch
results being silently dropped. -/
theorem claim8_amended {α : Type} (fenv : FileEnv α) (env : TrainEnv)
    (epochs : Nat) (useVal : Bool) (mon : MonitorState) (data : List α)
    (h : load_all_datasets fenv = some data) (hne : data.isEmpty = false) :
    ∃ log, sinTrain fenv env epochs useVal mon = Except.ok log ∧
      log.epochs = mon.current_log.epochs ++
        (List.range epochs).map (fun i => i + 1) ∧
      log.train_loss = mon.current_log.train_loss ++
        (List.range epochs).map
          (fun i => sumLosses (env.batchLosses (i + 1))) ∧
      log.metrics.map Prod.fst = mon.current_log.metrics.map Prod.fst := by
  refine ⟨(trainLoop env useVal mon epochs).current_log, ?_,
    trainLoop_epochs env useVal mon epochs,
    trainLoop_train_loss env useVal mon epochs,
    trainLoop_keys env useVal mon epochs⟩
  simp [sinTrain, h, hne]

/-- Claim C8 witness: the amended claim instantiated at the spec's
scenario — 2 epochs, a one-file dataset, one batch of loss 1 per epoch. -/
theorem claim8_witness :
    load_all_datasets exFenv = some [()] ∧
    ∃ log, sinTrain exFenv exTrainEnv 2 true monitorInit = Except.ok log ∧
      log.epochs = monitorInit.current_log.epochs ++
        (List.range 2).map (fun i => i + 1) ∧
      log.train_loss = monitorInit.current_log.train_loss ++
        (List.range 2).map
          (fun i => sumLosses (exTrainEnv.batchLosses (i + 1))) ∧
      log.metrics.map Prod.fst =
        monitorInit.current_log.metrics.map Prod.fst :=
  ⟨rfl, claim8_amended exFenv exTrainEnv 2 true monitorInit [()] rfl rfl⟩

theorem insertByMtimeDesc_perm (f : FileInfo) (l : List FileInfo) :
    List.Perm (insertByMtimeDesc f l) (f :: l) := by
  induction l with
  | nil => exact List.Perm.refl _
  | cons g gs ih =>
    by_cases h : g.mtime < f.mtime
    · simp only [insertByMtimeDesc, if_pos h]
      exact List.Perm.refl _
    · simp only [insertByMtimeDesc, if_neg h]
      exact List.Perm.trans (List.Perm.cons g ih) (List.Perm.swap f g gs)

theorem sortByMtimeDesc_perm (l : List FileInfo) :
    List.Perm (sortByMtimeDesc l) l := by
  induction l with
  | nil => exact List.Perm.refl _
  | cons f fs ih =>
    exact List.Perm.trans (insertByMtimeDesc_perm f (sortByMtimeDesc fs))
      (List.Perm.cons f ih)

theorem pairwise_insertByMtimeDesc (f : FileInfo) (l : List FileInfo)
    (h : List.Pairwise (fun a b => b.mtime ≤ a.mtime) l) :
    List.Pairwise (fun a b => b.mtime ≤ a.mtime) (insertByMtimeDesc f l) := by
  induction l with
  | nil => simp [insertByMtimeDesc]
  | cons g gs ih =>
    rcases List.pairwise_cons.mp h with ⟨hg, hgs⟩
    by_cases hlt : g.mtime < f.mtime
    · simp only [insertByMtimeDesc, if_pos hlt]
      refine List.pairwise_cons.mpr ⟨?_, h⟩
      intro b hb
      rcases List.mem_cons.mp hb with rfl | hb2
      · exact le_of_lt hlt
      · exact le_trans (hg b hb2) (le_of_lt hlt)
    · simp only [insertByMtimeDesc, if_neg hlt]
      refine List.pairwise_cons.mpr ⟨?_, ih hgs⟩
      intro b hb
      have hmem : b ∈ f :: gs := (insertByMtimeDesc_perm f gs).mem_iff.mp hb
      rcases List.mem_cons.mp hmem with rfl | hb2
      · exact le_of_not_lt hlt
      · exact hg b hb2

theorem sortByMtimeDesc_sorted (l : List FileInfo) :
    List.Pairwise (fun a b => b.mtime ≤ a.mtime) (sortByMtimeDesc l) := by
  induction l with
  | nil => simp [sortByMtimeDesc]
  | cons f fs ih => exact pairwise_insertByMtimeDesc f _ ih

theorem mem_pruneFold (unlinkOk : String → Bool) (doomed : List FileInfo)
    (fs : List FileInfo) (g : FileInfo) :
    (g ∈ doomed.foldl
        (fun acc f =>
          if unlinkOk f.name then acc.filter (fun x => x.name != f.name)
          else acc)
        fs) ↔
      (g ∈ fs ∧ ∀ d ∈ doomed, unlinkOk d.name = true → g.name ≠ d.name) := by
  induction doomed generalizing fs with
  | nil => simp
  | cons d t ih =>
    rw [List.foldl_cons, ih]
    by_cases hd : unlinkOk d.name = true
    · rw [if_pos hd]
      constructor
      · rintro ⟨hmem, hrest⟩
        rcases List.mem_filter.mp hmem with ⟨hgf, hname⟩
        refine ⟨hgf, ?_⟩
        intro d2 hd2 hok
        rcases List.mem_cons.mp hd2 with rfl | hd3
        · simpa using hname
        · exact hrest d2 hd3 hok
      · rintro ⟨hgf, hall⟩
        refine ⟨List.mem_filter.mpr ⟨hgf, ?_⟩,
          fun d2 hd2 hok => hall d2 (List.mem_cons_of_mem d hd2) hok⟩
        have hne := hall d (List.mem_cons_self d t) hd
        simpa using hne
    · rw [if_neg hd]
      constructor
      · rintro ⟨hgf, hrest⟩
        refine ⟨hgf, ?_⟩
        intro d2 hd2 hok
        rcases List.mem_cons.mp hd2 with rfl | hd3
        · exact absurd hok hd
        · exact hrest d2 hd3 hok
      · rintro ⟨hgf, hall⟩
        exact ⟨hgf, fun d2 hd2 hok => hall d2 (List.mem_cons_of_mem d hd2) hok⟩

theorem cleanup_mem_iff (fs : List FileInfo) (unlinkOk : String → Bool)
    (m : Nat) (g : FileInfo) :
    g ∈ cleanup_old_models fs unlinkOk m ↔
      (g ∈ fs ∧ ∀ d ∈ (prunedOrder fs).drop m, unlinkOk d.name = true →
        g.name ≠ d.name) :=
  mem_pruneFold unlinkOk ((prunedOrder fs).drop m) fs g

theorem prunedOrder_mem (fs : List FileInfo) (f : FileInfo)
    (h : f ∈ prunedOrder fs) : f ∈ fs ∧ isPt f = true := by
  have h2 : f ∈ fs.filter isPt :=
    (sortByMtimeDesc_perm (fs.filter isPt)).mem_iff.mp h
  exact ⟨(List.mem_filter.mp h2).1, (List.mem_filter.mp h2).2⟩

/-- Claim C6 counterexample: with the canonical latest slot
`sin_model.pt` as the oldest `.pt` file beside five newer versioned
snapshots, pruning to 5 deletes `sin_model.pt` — the claim says only
versioned snapshots (distinct from the canonical slot) are deletion
candidates, so the canonical slot should have survived. -/
theorem claim6_counterexample :
    cleanup_old_models exStore (fun _ => true) 5 =
      [⟨"v1.pt", 1⟩, ⟨"v2.pt", 2⟩, ⟨"v3.pt", 3⟩, ⟨"v4.pt", 4⟩,
       ⟨"v5.pt", 5⟩] ∧
    (⟨"sin_model.pt", 0⟩ : FileInfo) ∉
      cleanup_old_models exStore (fun _ => true) 5 :=
  ⟨by decide, by decide⟩

/-- Claim C6 as amended: pruning ranks ALL `.pt` files of the models
directory — the canonical `sin_model.pt` slot is not exempt — by
last-modified time descending; the `max_models` most recent survive,
every older `.pt` file whose unlink succeeds is removed, a file whose
unlink fails is logged and kept without aborting the deletion of the
others, non-`.pt` files are untouched, and nothing is created. -/
theorem claim6_amended (fs : List FileInfo) (unlinkOk : String → Bool)
    (m : Nat) (hnd : (fs.map FileInfo.name).Nodup) :
    (∀ f ∈ (prunedOrder fs).take m, f ∈ cleanup_old_models fs unlinkOk m) ∧
    (∀ f ∈ (prunedOrder fs).drop m, unlinkOk f.name = true →
      f.name ∉ (cleanup_old_models fs unlinkOk m).map FileInfo.name) ∧
    (∀ f ∈ (prunedOrder fs).drop m, unlinkOk f.name = false →
      f ∈ cleanup_old_models fs unlinkOk m) ∧
    (∀ f ∈ (prunedOrder fs).take m, ∀ g ∈ (prunedOrder fs).drop m,
      g.mtime ≤ f.mtime) ∧
    (∀ f ∈ fs, isPt f = false → f ∈ cleanup_old_models fs unlinkOk m) ∧
    (∀ f ∈ cleanup_old_models fs unlinkOk m, f ∈ fs) := by
  have hnames : ((prunedOrder fs).map FileInfo.name).Nodup := by
    have hsub : List.Sublist ((fs.filter isPt).map FileInfo.name)
        (fs.map FileInfo.name) :=
      List.Sublist.map FileInfo.name (List.filter_sublist fs)
    have hfil : ((fs.filter isPt).map FileInfo.name).Nodup :=
      List.Nodup.sublist hsub hnd
    exact (List.Perm.nodup_iff
      (List.Perm.map FileInfo.name
        (sortByMtimeDesc_perm (fs.filter isPt)))).mpr hfil
  have hsplit : (prunedOrder fs).take m ++ (prunedOrder fs).drop m =
      prunedOrder fs := List.take_append_drop m (prunedOrder fs)
  refine ⟨?_, ?_, ?_, ?_, ?_, ?_⟩
  · intro f hf
    refine (cleanup_mem_iff fs unlinkOk m f).mpr
      ⟨(prunedOrder_mem fs f (List.take_subset m _ hf)).1, ?_⟩
    intro d hd hok he
    have hmapf : f.name ∈ ((prunedOrder fs).take m).map FileInfo.name :=
      List.mem_map_of_mem FileInfo.name hf
    have hmapd : f.name ∈ ((prunedOrder fs).drop m).map FileInfo.name := by
      rw [he]
      exact List.mem_map_of_mem FileInfo.name hd
    have hnd2 : (((prunedOrder fs).take m).map FileInfo.name ++
        ((prunedOrder fs).drop m).map FileInfo.name).Nodup := by
      rw [← List.map_append, hsplit]
      exact hnames
    exact (List.disjoint_of_nodup_append hnd2) hmapf hmapd
  · intro f hf hok hmem
    rcases List.mem_map.mp hmem with ⟨g, hgres, hgname⟩
    have hall := ((cleanup_mem_iff fs unlinkOk m g).mp hgres).2
    exact hall f hf hok hgname
  · intro f hf hfail
    refine (cleanup_mem_iff fs unlinkOk m f).mpr
      ⟨(prunedOrder_mem fs f (List.drop_subset m _ hf)).1, ?_⟩
    intro d hd hok he
    rw [he, hok] at hfail
    cases hfail
  · intro f hf g hg
    have hp : List.Pairwise (fun a b => b.mtime ≤ a.mtime)
        ((prunedOrder fs).take m ++ (prunedOrder fs).drop m) := by
      rw [hsplit]
      exact sortByMtimeDesc_sorted (fs.filter isPt)
    exact (List.pairwise_append.mp hp).2.2 f hf g hg
  · intro f hf hnpt
    refine (cleanup_mem_iff fs unlinkOk m f).mpr ⟨hf, ?_⟩
    intro d hd hok he
    have hdpt : isPt d = true :=
      (prunedOrder_mem fs d (List.drop_subset m _ hd)).2
    have : isPt f = true := by
      unfold isPt at hdpt ⊢
      rw [he]
      exact hdpt
    rw [this] at hnpt
    cases hnpt
  · intro f hf
    exact ((cleanup_mem_iff fs unlinkOk m f).mp hf).1

/-- Claim C6 witness: the spec's 8-snapshot scenario with a simulated
unlink failure on `v2.pt` (one of the 3 oldest): the 5 most recent
survive, `v3.pt` and `v1.pt` are removed despite the failure in between,
and the failing `v2.pt` is kept. -/
theorem claim6_witness :
    (exStore8.map FileInfo.name).Nodup ∧
    (⟨"v8.pt", 8⟩ : FileInfo) ∈
      cleanup_old_models exStore8 (fun n => n != "v2.pt") 5 ∧
    "v3.pt" ∉ (cleanup_old_models exStore8
      (fun n => n != "v2.pt") 5).map FileInfo.name ∧
    (⟨"v2.pt", 2⟩ : FileInfo) ∈
      cleanup_old_models exStore8 (fun n => n != "v2.pt") 5 ∧
    "v1.pt" ∉ (cleanup_old_models exStore8
      (fun n => n != "v2.pt") 5).map FileInfo.name :=
  ⟨by decide,
   (claim6_amended exStore8 (fun n => n != "v2.pt") 5 (by decide)).1
     ⟨"v8.pt", 8⟩ (by decide),
   (claim6_amended exStore8 (fun n => n != "v2.pt") 5 (by decide)).2.1
     ⟨"v3.pt", 3⟩ (by decide) (by decide),
   (claim6_amended exStore8 (fun n => n != "v2.pt") 5 (by decide)).2.2.1
     ⟨"v2.pt", 2⟩ (by decide) (by decide),
   (claim6_amended exStore8 (fun n => n != "v2.pt") 5 (by decide)).2.1
     ⟨"v1.pt", 1⟩ (by decide) (by decide)⟩
